import Mathlib

/-!
Verification development for the NachOS post-office subsystem
(src/code/network/post.cc, src/code/threads/list.cc).

Shallow embedding conventions:
* machine and mailbox addresses are `Int` (C `int`), lengths and counters
  are `Nat`;
* payloads are the character sequences of C strings, modelled as `List Int`
  (the bytes up to the terminating null character, which are nonzero by
  definition of `strlen`/`strcat`);
* a packet buffer is a `List Int` of cells at word granularity: each `int`
  field of a header occupies one cell, so `sizeof(MailHeader)` is the cell
  count `sizeofMailHeader`;
* `ASSERT(false)` / failed `ASSERT` (process-fatal) is `Except.error ()`;
  dereferencing the head of an empty list (undefined behaviour in
  `List::GetFirst`) is likewise `Except.error ()` in the functions that may
  reach it;
* a `SynchList` is its underlying `List` (list.cc) — `Append` puts at the
  tail, `Remove`/`SortedRemove` takes from the head, `GetFirst` reads the
  head without a guard; blocking behaviour of the synchronised wrappers is
  modelled by the caller (a `Get` on an empty queue simply has no result).
-/

/-- PacketHeader (network layer): destination and source machine ids and
payload length.  The class declaration lives in network.h (not under
src/); the fields are reconstructed from their uses in post.cc and the
spec's data model. -/
structure PacketHeader where
  «to» : Int
  «from» : Int
  length : Nat
deriving DecidableEq, Repr

/-- MailHeader (mailbox layer): destination and source mailbox ids, payload
length, and the remaining-fragment counter of the reliability protocol.
The class declaration lives in post.h (not under src/); the fields are
reconstructed from their uses in post.cc and the spec's data model. -/
structure MailHeader where
  «to» : Int
  «from» : Int
  length : Nat
  remainingParts : Nat
deriving DecidableEq, Repr

/-- Mail (post.cc): the two headers, the payload buffer, and the protocol
bookkeeping fields `remainingParts` and `attempts` that live on the Mail
record itself (set by the reliable-send paths). -/
structure Mail where
  pktHdr : PacketHeader
  mailHdr : MailHeader
  data : List Int
  remainingParts : Nat
  attempts : Nat
deriving DecidableEq, Repr

/-- List::Append (list.cc 77-94): put the item at the tail. -/
def sListAppend (l : List Mail) (item : Mail) : List Mail :=
  l ++ [item]

/-- List::SortedRemove / Remove (list.cc 135-139, 237-261): take the head;
returns NULL (`none`) and leaves the list unchanged when it is empty. -/
def sListRemove (l : List Mail) : Option Mail × List Mail :=
  match l with
  | [] => (none, [])
  | x :: t => (some x, t)

/-- List::GetFirst (list.cc 263-266): `return first->item` — dereferences
the head node unconditionally; on an empty list `first` is NULL and the
dereference is undefined behaviour, modelled as `Except.error ()`. -/
def sListGetFirst (l : List Mail) : Except Unit Mail :=
  match l with
  | [] => .error ()
  | x :: _ => .ok x

/-- Word-granularity size of a serialized MailHeader: four `int` fields. -/
def sizeofMailHeader : Nat := 4

/-- Modelled from the spec: the MailHeader class declaration lives in
post.h, which is not under src/, so the cells laid down in a packet buffer
by `bcopy(&mailHdr, buffer, sizeof(MailHeader))` follow the spec's wire
format `MailboxHeader(sourceBox, destBox, length, remainingFragments)`,
one cell per `int` field. -/
def encodeMailHeader (h : MailHeader) : List Int :=
  [h.«from», h.to, (h.length : Int), (h.remainingParts : Int)]

/-- Mail::Mail (post.cc 38-46): asserts `mailH.length <= MaxMailSize`
(fatal otherwise), then copies `mailH.length` payload cells.  The
`remainingParts`/`attempts` fields are uninitialised in the source and are
always set by the reliable-send callers before use; they are 0 here. -/
def mkMail (maxMailSize : Nat) (pktH : PacketHeader) (mailH : MailHeader)
    (msgData : List Int) : Except Unit Mail :=
  if mailH.length ≤ maxMailSize then
    .ok { pktHdr := pktH, mailHdr := mailH, data := msgData.take mailH.length,
          remainingParts := 0, attempts := 0 }
  else .error ()

/-- MailBox::Put (post.cc 111-119): construct a Mail and append it to the
tail of the mailbox queue. -/
def mailboxPut (maxMailSize : Nat) (box : List Mail) (pktHdr : PacketHeader)
    (mailHdr : MailHeader) (data : List Int) : Except Unit (List Mail) :=
  (mkMail maxMailSize pktHdr mailHdr data).map (fun mail => sListAppend box mail)

/-- The queue component of MailBox::Get (post.cc 139-174): remove the oldest
Mail from the mailbox queue and hand its headers and payload to the caller;
when the queue is empty the calling thread blocks (no result here).  The
in-flight acknowledgment check that Get also performs is `getAckCheck`. -/
def mailboxGet (box : List Mail) :
    Option (PacketHeader × MailHeader × List Int × List Mail) :=
  match sListRemove box with
  | (some mail, rest) => some (mail.pktHdr, mail.mailHdr, mail.data, rest)
  | (none, _) => none

/-- The acknowledgment check inside MailBox::Get (post.cc 154-167): read the
oldest entry of the in-flight list with an unguarded `GetFirst` (undefined
behaviour when the list is empty, hence `Except`), and remove that oldest
entry exactly when its source mailbox (`sentMessage->mailHdr.from`) equals
the destination mailbox (`mail->mailHdr.to`) of the just-received message. -/
def getAckCheck (postOfficeMessages : List Mail) (mail : Mail) :
    Except Unit (List Mail) :=
  match sListGetFirst postOfficeMessages with
  | .error _ => .error ()
  | .ok sentMessage =>
    if sentMessage.mailHdr.«from» = mail.mailHdr.to then
      .ok (sListRemove postOfficeMessages).2
    else
      .ok postOfficeMessages

/-- PostOffice::FindMail (post.cc 360-368): ignores its Mail argument; if
the in-flight list is non-empty it returns the oldest entry via `GetFirst`
(the emptiness guard makes the dereference safe), otherwise NULL. -/
def findMail (sentMessages : List Mail) (_mail : Mail) :
    Except Unit (Option Mail) :=
  if sentMessages.isEmpty then .ok none
  else (sListGetFirst sentMessages).map some

/-- PostOffice::Send (post.cc 311-342): assert `mailHdr.length <=
MaxMailSize` and `0 <= mailHdr.to < numBoxes` (fatal otherwise); overwrite
the packet header's `from` with this machine's address and its `length`
with `mailHdr.length + sizeof(MailHeader)`; build the buffer as the
MailHeader cells followed by `mailHdr.length` payload cells; hand
(packet header, buffer) to the network device. -/
def sendModel (netAddr : Int) (numBoxes : Int) (maxMailSize : Nat)
    (pktHdr : PacketHeader) (mailHdr : MailHeader) (data : List Int) :
    Except Unit (PacketHeader × List Int) :=
  if mailHdr.length ≤ maxMailSize ∧ 0 ≤ mailHdr.to ∧ mailHdr.to < numBoxes then
    .ok ({ «to» := pktHdr.to, «from» := netAddr,
           length := mailHdr.length + sizeofMailHeader },
         encodeMailHeader mailHdr ++ data.take mailHdr.length)
  else .error ()

/-- The validation step of PostOffice::PostalDelivery (post.cc 289-294) on
one arriving packet: assert `0 <= mailHdr.to < numBoxes`, then assert
`mailHdr.length <= MaxMailSize` (each fatal), then enqueue into mailbox
`mailHdr.to` (returned here as the chosen box id). -/
def postalDeliveryCheck (numBoxes : Int) (maxMailSize : Nat)
    (mailHdr : MailHeader) : Except Unit Int :=
  if 0 ≤ mailHdr.to ∧ mailHdr.to < numBoxes then
    if mailHdr.length ≤ maxMailSize then .ok mailHdr.to
    else .error ()
  else .error ()

/-- What the single-chunk reliable send does besides mutating the in-flight
list: the arguments handed to the unreliable `Send`, whether the
retransmission timer was armed (`interrupt->Schedule`), and the mailbox id
the sender then blocks on (`Receive(1, ...)`). -/
structure RSendResult where
  newSent : List Mail
  sendPkt : PacketHeader
  sendMh : MailHeader
  sendData : List Int
  rearm : Bool
  awaitBox : Int
deriving DecidableEq, Repr

/-- The single-chunk branch of PostOffice::ReliableSend (post.cc 405-447):
build a backup Mail (`remainingParts = 0`, payload `strncpy`-truncated to
MaxMailSize); `FindMail` the in-flight list — if NULL, set `attempts = 1`
and append the backup; otherwise, if the found entry's attempts are within
`MAXREEMISSIONS` increment them and reuse that entry, else fatal
(`ASSERT(false)`, the "Network Error").  Then hand `data` to the unreliable
`Send` with the header's `remainingParts` taken from the (reused or fresh)
in-flight Mail, arm the retransmission timer, and block on mailbox 1. -/
def reliableSendSingle (maxReemissions maxMailSize : Nat)
    (sentMessages : List Mail) (pktHdr : PacketHeader) (mailHdr : MailHeader)
    (data : List Int) : Except Unit RSendResult :=
  let backup : Mail :=
    { pktHdr := pktHdr, mailHdr := mailHdr, data := data.take maxMailSize,
      remainingParts := 0, attempts := 0 }
  match findMail sentMessages backup with
  | .error _ => .error ()
  | .ok none =>
    let mail := { backup with attempts := 1 }
    .ok { newSent := sListAppend sentMessages mail
        , sendPkt := pktHdr
        , sendMh := { mailHdr with remainingParts := mail.remainingParts }
        , sendData := data
        , rearm := true
        , awaitBox := 1 }
  | .ok (some sentMail) =>
    if sentMail.attempts ≤ maxReemissions then
      let mail := { sentMail with attempts := sentMail.attempts + 1 }
      .ok { newSent := mail :: sentMessages.tail
          , sendPkt := pktHdr
          , sendMh := { mailHdr with remainingParts := mail.remainingParts }
          , sendData := data
          , rearm := true
          , awaitBox := 1 }
    else .error ()

/-- Outcome of one firing of TimeOutHandler. -/
inductive TOResult where
  | halt : TOResult
  | fatal : TOResult
  | resent : RSendResult → TOResult
deriving DecidableEq, Repr

/-- TimeOutHandler (post.cc 346-358): if the in-flight list is empty, call
`interrupt->Halt()` (no retransmission — the teardown trigger); otherwise
read the oldest in-flight Mail (guarded `GetFirst`) and re-enter
`ReliableSend` with its headers and data.  A stored chunk's payload is at
most MaxMailSize characters, so that call takes the single-chunk branch;
its `ASSERT(false)` on retry exhaustion is `TOResult.fatal`. -/
def timeOutHandler (maxReemissions maxMailSize : Nat)
    (sentMessages : List Mail) : Except Unit TOResult :=
  if sentMessages.isEmpty then .ok .halt
  else
    (sListGetFirst sentMessages).bind (fun mail =>
      match reliableSendSingle maxReemissions maxMailSize sentMessages
          mail.pktHdr mail.mailHdr mail.data with
      | .error _ => .ok .fatal
      | .ok r => .ok (.resent r))

/-- Modelled from the spec: divRoundUp comes from utility.h, which is not
under src/; the spec describes the chunk count as
"ceil(len/(max mail size − 1))", so this is `n / s` rounded up. -/
def divRoundUp (n s : Nat) : Nat :=
  n / s + (if n % s > 0 then 1 else 0)

/-- Chunk `i` of the fragmentation loop (post.cc 381-400): the loop
`memcpy`s `MaxMailSize - 1` characters starting at offset
`i * (MaxMailSize - 1)`, null-terminates, and `strncpy`s the result into the
chunk Mail, so the chunk's effective C-string payload is the corresponding
slice of the original string, at most `MaxMailSize - 1` characters. -/
def chunkData (maxMailSize : Nat) (data : List Int) (i : Nat) : List Int :=
  (data.drop (i * (maxMailSize - 1))).take (maxMailSize - 1)

/-- The list of chunk Mails built by the fragmentation loop of
PostOffice::ReliableSend (post.cc 376-400), in append order: chunk `i`
carries slice `i`, header length forced to MaxMailSize, remaining-fragment
counter `pieces - 1 - i` and `attempts = 0`. -/
def fragments (maxMailSize : Nat) (pktHdr : PacketHeader)
    (mailHdr : MailHeader) (data : List Int) : List Mail :=
  let pieces := divRoundUp data.length (maxMailSize - 1)
  (List.range pieces).map (fun i =>
    { pktHdr := pktHdr
    , mailHdr := { mailHdr with length := maxMailSize }
    , data := chunkData maxMailSize data i
    , remainingParts := pieces - 1 - i
    , attempts := 0 })

deriving instance DecidableEq for Except

/-- Which branch PostOffice::ReliableSend took, with what that branch did:
the fragmentation path records the in-flight list as it stands when the
first transmission is attempted (all chunks already appended) and the
result of the `TimeOutHandler((int) this)` call that performs it; the
single-chunk path records the `reliableSendSingle` outcome. -/
inductive RSOutcome where
  | fragPath : List Mail → Except Unit TOResult → RSOutcome
  | singlePath : Except Unit RSendResult → RSOutcome
deriving DecidableEq, Repr

/-- PostOffice::ReliableSend (post.cc 373-448): if `strlen(data)` exceeds
MaxMailSize, append all fragment chunks to the in-flight list and only then
trigger the first transmission through `TimeOutHandler`; otherwise take the
single-chunk branch. -/
def reliableSend (maxReemissions maxMailSize : Nat) (sentMessages : List Mail)
    (pktHdr : PacketHeader) (mailHdr : MailHeader) (data : List Int) :
    RSOutcome :=
  if data.length > maxMailSize then
    let newSent := sentMessages ++ fragments maxMailSize pktHdr mailHdr data
    .fragPath newSent (timeOutHandler maxReemissions maxMailSize newSent)
  else
    .singlePath (reliableSendSingle maxReemissions maxMailSize sentMessages
      pktHdr mailHdr data)

/-- The Mail as it sits in the peer's mailbox after a chunk is transmitted:
the wire header's `remainingParts` is set from the in-flight Mail's counter
at transmission time (post.cc 435), and the effective C-string payload is
the chunk's (the `strncpy` null padding disappears under `strcat`). -/
def deliveredOf (m : Mail) : Mail :=
  { m with mailHdr := { m.mailHdr with remainingParts := m.remainingParts } }

/-- PostOffice::ReliableReceive (post.cc 479-520), on the queue of fragments
that reach the target mailbox in arrival order: `Get` one Mail (blocking —
an empty queue yields no result, `Except.error`), `strcat` its payload onto
the caller's accumulation buffer, send the fixed acknowledgment back, and
recurse while the received header's remaining-fragment count is positive;
at zero the accumulated buffer is the delivered message. -/
def reliableReceive : List Mail → List Int → Except Unit (List Int)
  | [], _ => .error ()
  | mail :: queue, bigBuffer =>
    let big := bigBuffer ++ mail.data
    if 0 < mail.mailHdr.remainingParts then reliableReceive queue big
    else .ok big

/-- The acknowledgment headers built by PostOffice::ReliableReceive
(post.cc 493-502): swap machine ids and mailbox ids of the just-received
headers; the ack payload is the fixed string "Got it!" of length 8 with its
terminator (the packet length field is filled in later by `Send`). -/
def ackHeaders (pktHdr : PacketHeader) (mailHdr : MailHeader) :
    PacketHeader × MailHeader :=
  ({ «to» := pktHdr.«from», «from» := pktHdr.«to», length := 0 },
   { «to» := mailHdr.«from», «from» := mailHdr.«to», length := 8,
     remainingParts := 0 })

/-- Number of transmissions the timeout-driven retransmission loop performs
when every packet is dropped (no acknowledgment ever arrives, so the
in-flight entry is never removed), starting from an in-flight entry whose
attempt counter is `a`: each firing with `attempts <= MAXREEMISSIONS`
increments the counter and retransmits; the first firing with
`attempts > MAXREEMISSIONS` is the fatal `ASSERT(false)`. -/
def resendsFrom (maxReemissions a : Nat) : Nat :=
  if a ≤ maxReemissions then 1 + resendsFrom maxReemissions (a + 1) else 0
termination_by maxReemissions + 1 - a
decreasing_by omega

/-- Total transmissions of a single-chunk reliable send under total packet
loss: the initial `Send` (the fresh entry is inserted with `attempts = 1`)
plus the timeout-driven resends. -/
def totalTransmissionsSingle (maxReemissions : Nat) : Nat :=
  1 + resendsFrom maxReemissions 1

/-- Total transmissions of one fragmented chunk under total packet loss:
chunks are appended with `attempts = 0` and every transmission, the first
included, goes through the timeout handler. -/
def totalTransmissionsChunk (maxReemissions : Nat) : Nat :=
  resendsFrom maxReemissions 0

/-- The Mail that `MailBox::Put` constructs from one (packet header, mail
header, payload) triple: the payload cells actually stored are the
`mailHdr.length` cells `bcopy`d by the Mail constructor. -/
def mailOf (t : PacketHeader × MailHeader × List Int) : Mail :=
  { pktHdr := t.1, mailHdr := t.2.1, data := t.2.2.take t.2.1.length,
    remainingParts := 0, attempts := 0 }

/-- A sequence of `MailBox::Put` calls by a single producer, oldest first:
each one appends at the tail of the queue (fatal on a length violation). -/
def putAll (maxMailSize : Nat) (box : List Mail) :
    List (PacketHeader × MailHeader × List Int) → Except Unit (List Mail)
  | [] => .ok box
  | (p, mh, d) :: rest =>
    (mailboxPut maxMailSize box p mh d).bind (fun b => putAll maxMailSize b rest)

/-- The sequence of (packet header, mail header, payload) triples returned
by `n` successive `MailBox::Get` calls, each removing the head of the
queue. -/
def getAll : Nat → List Mail → List (PacketHeader × MailHeader × List Int)
  | 0, _ => []
  | n + 1, box =>
    match mailboxGet box with
    | none => []
    | some (p, mh, d, rest) => (p, mh, d) :: getAll n rest

/-- The properties of the fragmentation path of ReliableSend and of the
peer's ReliableReceive, for one payload: the chunk count is
`divRoundUp len (maxMailSize - 1)`; every chunk carries at most
`maxMailSize - 1` payload characters; the remaining-fragment counters
descend `pieces-1, ..., 0`; all chunks are already in the in-flight list
when the first transmission is attempted, and that transmission sends the
first chunk (tagged `pieces - 1`) while keeping every chunk in flight; and
the peer's recursive receive reassembles the original payload
byte-for-byte. -/
def fragProps (maxReemissions maxMailSize : Nat) (pktHdr : PacketHeader)
    (mailHdr : MailHeader) (data : List Int) : Prop :=
  let pieces := divRoundUp data.length (maxMailSize - 1)
  let frags := fragments maxMailSize pktHdr mailHdr data
  frags.length = pieces ∧
  (∀ f ∈ frags, f.data.length ≤ maxMailSize - 1) ∧
  frags.map Mail.remainingParts =
    (List.range pieces).map (fun i => pieces - 1 - i) ∧
  reliableSend maxReemissions maxMailSize [] pktHdr mailHdr data =
    .fragPath frags (timeOutHandler maxReemissions maxMailSize frags) ∧
  (∃ r, timeOutHandler maxReemissions maxMailSize frags = .ok (.resent r) ∧
    r.sendData = data.take (maxMailSize - 1) ∧
    r.sendMh.remainingParts = pieces - 1 ∧
    r.newSent.length = pieces) ∧
  reliableReceive (frags.map deliveredOf) [] = .ok data

/-- A sample packet header used by concrete witnesses. -/
def pkt0 : PacketHeader := { «to» := 0, «from» := 0, length := 0 }

/-- A sample in-flight Mail: destination mailbox 3, source mailbox 2,
attempts 0. -/
def mailA : Mail :=
  ⟨pkt0, ⟨3, 2, 2, 0⟩, [9, 9], 0, 0⟩

/-- A sample received Mail: destination mailbox 5, source mailbox 3. -/
def mailR : Mail :=
  ⟨pkt0, ⟨5, 3, 1, 0⟩, [8], 0, 0⟩

/-- A sample received Mail whose destination mailbox 2 equals `mailA`'s
source mailbox. -/
def mailC : Mail :=
  ⟨pkt0, ⟨2, 7, 1, 0⟩, [8], 0, 0⟩

/-- A sample in-flight Mail whose attempt counter 3 already exceeds a retry
ceiling of 2. -/
def mailEx : Mail :=
  ⟨pkt0, ⟨3, 2, 2, 0⟩, [9, 9], 0, 3⟩

theorem reliableSendSingle_nil (maxR maxM : Nat) (pktHdr : PacketHeader)
    (mailHdr : MailHeader) (data : List Int) :
    reliableSendSingle maxR maxM [] pktHdr mailHdr data =
      .ok { newSent := [⟨pktHdr, mailHdr, data.take maxM, 0, 1⟩]
          , sendPkt := pktHdr
          , sendMh := { mailHdr with remainingParts := 0 }
          , sendData := data
          , rearm := true
          , awaitBox := 1 } := rfl

theorem reliableSendSingle_cons_ok (maxR maxM : Nat) (old : Mail)
    (rest : List Mail) (pktHdr : PacketHeader) (mailHdr : MailHeader)
    (data : List Int) (h : old.attempts ≤ maxR) :
    reliableSendSingle maxR maxM (old :: rest) pktHdr mailHdr data =
      .ok { newSent := { old with attempts := old.attempts + 1 } :: rest
          , sendPkt := pktHdr
          , sendMh := { mailHdr with remainingParts := old.remainingParts }
          , sendData := data
          , rearm := true
          , awaitBox := 1 } := by
  simp [reliableSendSingle, findMail, sListGetFirst, Except.map, h]

theorem reliableSendSingle_cons_fatal (maxR maxM : Nat) (old : Mail)
    (rest : List Mail) (pktHdr : PacketHeader) (mailHdr : MailHeader)
    (data : List Int) (h : maxR < old.attempts) :
    reliableSendSingle maxR maxM (old :: rest) pktHdr mailHdr data =
      .error () := by
  have h' : ¬ old.attempts ≤ maxR := Nat.not_le.mpr h
  simp [reliableSendSingle, findMail, sListGetFirst, Except.map, h']

theorem timeOutHandler_nil (maxR maxM : Nat) :
    timeOutHandler maxR maxM [] = .ok .halt := rfl

theorem timeOutHandler_cons_resend (maxR maxM : Nat) (old : Mail)
    (rest : List Mail) (h : old.attempts ≤ maxR) :
    timeOutHandler maxR maxM (old :: rest) =
      .ok (.resent { newSent := { old with attempts := old.attempts + 1 } :: rest
                   , sendPkt := old.pktHdr
                   , sendMh := { old.mailHdr with remainingParts := old.remainingParts }
                   , sendData := old.data
                   , rearm := true
                   , awaitBox := 1 }) := by
  simp only [timeOutHandler, List.isEmpty_cons, Bool.false_eq_true, if_false,
    sListGetFirst, Except.bind, reliableSendSingle_cons_ok maxR maxM old rest
      old.pktHdr old.mailHdr old.data h]

theorem timeOutHandler_cons_fatal (maxR maxM : Nat) (old : Mail)
    (rest : List Mail) (h : maxR < old.attempts) :
    timeOutHandler maxR maxM (old :: rest) = .ok .fatal := by
  simp only [timeOutHandler, List.isEmpty_cons, Bool.false_eq_true, if_false,
    sListGetFirst, Except.bind, reliableSendSingle_cons_fatal maxR maxM old rest
      old.pktHdr old.mailHdr old.data h]

theorem resendsFrom_eq (maxR : Nat) : ∀ a : Nat, resendsFrom maxR a = maxR + 1 - a := by
  have H : ∀ n a, maxR + 1 - a ≤ n → resendsFrom maxR a = maxR + 1 - a := by
    intro n
    induction n with
    | zero =>
      intro a ha
      rw [resendsFrom, if_neg (by omega)]
      omega
    | succ n ih =>
      intro a ha
      by_cases h : a ≤ maxR
      · rw [resendsFrom, if_pos h, ih (a + 1) (by omega)]
        omega
      · rw [resendsFrom, if_neg h]
        omega
  exact fun a => H (maxR + 1 - a) a le_rfl

theorem le_divRoundUp_mul (n s : Nat) (hs : 0 < s) : n ≤ divRoundUp n s * s := by
  unfold divRoundUp
  rcases Nat.lt_or_ge 0 (n % s) with hpos | hz
  · rw [if_pos hpos, Nat.add_mul, one_mul]
    have h1 := Nat.div_add_mod n s
    have h2 := Nat.mod_lt n hs
    have h3 : n / s * s = s * (n / s) := Nat.mul_comm _ _
    omega
  · rw [if_neg (by omega), Nat.add_zero]
    have h1 := Nat.div_add_mod n s
    have h3 : n / s * s = s * (n / s) := Nat.mul_comm _ _
    omega

theorem divRoundUp_pos (n s : Nat) (hn : 0 < n) (hs : 0 < s) :
    0 < divRoundUp n s := by
  unfold divRoundUp
  by_cases h : n % s > 0
  · simp [h]
  · have hz : n % s = 0 := by omega
    have hdvd : s ∣ n := Nat.dvd_of_mod_eq_zero hz
    have hle : s ≤ n := Nat.le_of_dvd hn hdvd
    simp [h]
    exact Nat.div_pos hle hs

theorem joinChunks_eq (s : Nat) :
    ∀ (n : Nat) (d : List Int), d.length ≤ n * s →
      ((List.range n).map (fun i => (d.drop (i * s)).take s)).flatten = d := by
  intro n
  induction n with
  | zero =>
    intro d hd
    simp at hd
    simp [hd]
  | succ n ih =>
    intro d hd
    rw [List.range_succ_eq_map, List.map_cons, List.map_map, List.flatten_cons]
    have hcomp :
        ((List.range n).map ((fun i => (d.drop (i * s)).take s) ∘ Nat.succ)) =
        (List.range n).map (fun i => ((d.drop s).drop (i * s)).take s) := by
      apply List.map_congr_left
      intro i _
      simp only [Function.comp]
      rw [List.drop_drop]
      congr 2
      rw [Nat.succ_mul]
      ring
    rw [hcomp, ih (d.drop s) (by
      rw [List.length_drop]
      have h2 : (n + 1) * s = n * s + s := by ring
      omega)]
    simp

theorem fragments_length (maxM : Nat) (pktHdr : PacketHeader)
    (mailHdr : MailHeader) (data : List Int) :
    (fragments maxM pktHdr mailHdr data).length =
      divRoundUp data.length (maxM - 1) := by
  simp [fragments]

theorem fragments_counters (maxM : Nat) (pktHdr : PacketHeader)
    (mailHdr : MailHeader) (data : List Int) :
    (fragments maxM pktHdr mailHdr data).map Mail.remainingParts =
      (List.range (divRoundUp data.length (maxM - 1))).map
        (fun i => divRoundUp data.length (maxM - 1) - 1 - i) := by
  simp [fragments, List.map_map]

theorem fragments_data (maxM : Nat) (pktHdr : PacketHeader)
    (mailHdr : MailHeader) (data : List Int) :
    (fragments maxM pktHdr mailHdr data).map Mail.data =
      (List.range (divRoundUp data.length (maxM - 1))).map
        (fun i => (data.drop (i * (maxM - 1))).take (maxM - 1)) := by
  simp [fragments, List.map_map, chunkData]

theorem reliableReceive_concat :
    ∀ (l : List Mail) (big : List Int), l ≠ [] →
      (∀ i (h : i < l.length),
        (l.get ⟨i, h⟩).mailHdr.remainingParts = l.length - 1 - i) →
      reliableReceive l big = .ok (big ++ (l.map Mail.data).flatten) := by
  intro l
  induction l with
  | nil => intro big h _; exact absurd rfl h
  | cons m t ih =>
    intro big _ hc
    have h0 := hc 0 (by simp)
    simp at h0
    cases t with
    | nil =>
      simp [reliableReceive, h0]
    | cons m2 t2 =>
      have hpos : 0 < m.mailHdr.remainingParts := by
        simp at h0
        omega
      have hc' : ∀ i (h : i < (m2 :: t2).length),
          ((m2 :: t2).get ⟨i, h⟩).mailHdr.remainingParts =
            (m2 :: t2).length - 1 - i := by
        intro i h
        have := hc (i + 1) (by simpa using Nat.succ_lt_succ h)
        simpa using this
      rw [reliableReceive, if_pos hpos,
        ih (big ++ m.data) (by simp) hc']
      simp

theorem putAll_ok (maxM : Nat) :
    ∀ (msgs : List (PacketHeader × MailHeader × List Int)) (box : List Mail),
      (∀ x ∈ msgs, x.2.1.length ≤ maxM) →
      putAll maxM box msgs = .ok (box ++ msgs.map mailOf) := by
  intro msgs
  induction msgs with
  | nil => intro box _; simp [putAll]
  | cons a rest ih =>
    intro box h
    obtain ⟨p, mh, d⟩ := a
    have ha : mh.length ≤ maxM := h (p, mh, d) (List.mem_cons_self _ _)
    have hrest : ∀ x ∈ rest, x.2.1.length ≤ maxM :=
      fun x hx => h x (List.mem_cons_of_mem _ hx)
    simp only [putAll, mailboxPut, mkMail, if_pos ha, Except.map, Except.bind,
      sListAppend]
    have := ih (box ++ [mailOf (p, mh, d)]) hrest
    simp only [mailOf] at this
    rw [this]
    simp [mailOf]

theorem getAll_length (box : List Mail) :
    getAll box.length box = box.map (fun m => (m.pktHdr, m.mailHdr, m.data)) := by
  induction box with
  | nil => rfl
  | cons m t ih => simp [getAll, mailboxGet, sListRemove, ih]

/-- C2 counterexample: an in-flight oldest entry whose destination mailbox
(3) equals the source mailbox (3) of the just-received message — the claim
mandates its removal — yet the code removes nothing, because the comparison
at post.cc 160 is `sentMessage->mailHdr.from == mail->mailHdr.to`
(in-flight entry's source against received message's destination), not the
pairing the claim states. -/
theorem c2_counterexample :
    mailA.mailHdr.«to» = mailR.mailHdr.«from» ∧
    getAckCheck [mailA] mailR = .ok [mailA] := by
  constructor
  · rfl
  · rfl

/-- C2 (amended): for every message dequeued by Get while the in-flight set
is non-empty, the oldest in-flight entry is removed exactly when that
entry's SOURCE mailbox id equals the DESTINATION mailbox id of the
just-received message; only the single oldest entry is ever inspected and
no other entry is removed. -/
theorem c2_ack_matching (inflight : List Mail) (received old : Mail)
    (rest : List Mail) (h : inflight = old :: rest) :
    getAckCheck inflight received =
      .ok (if old.mailHdr.«from» = received.mailHdr.«to» then rest
           else old :: rest) := by
  subst h
  simp only [getAckCheck, sListGetFirst, sListRemove]
  split <;> rfl

/-- C2 witness: with the oldest in-flight entry's source mailbox 2 equal to
the received message's destination mailbox 2, the entry is removed. -/
theorem c2_ack_matching_witness : getAckCheck [mailA] mailC = .ok [] := by
  have h := c2_ack_matching [mailA] mailC mailA [] rfl
  simpa using h

/-- C4 counterexample: the in-flight set holds a single entry destined for
mailbox 3, and a message destined for mailbox 5 is reliably sent.  No entry
correlated to destination mailbox 5 exists, so the claim mandates inserting
a fresh entry with attempts = 1; instead the code bumps the unrelated
oldest entry (destination 3) to attempts = 1 and inserts nothing — FindMail
(post.cc 360-368) never compares mailbox ids. -/
theorem c4_counterexample :
    (∀ e ∈ [mailA], e.mailHdr.«to» ≠ (5 : Int)) ∧
    reliableSendSingle 3 5 [mailA] pkt0 ⟨5, 2, 2, 0⟩ [7, 7] =
      .ok ⟨[{ mailA with attempts := 1 }], pkt0, ⟨5, 2, 2, 0⟩, [7, 7],
           true, 1⟩ := by
  constructor
  · decide
  · rfl

/-- C4 (amended): the single-chunk reliable send performs no per-mailbox
correlation: FindMail returns the oldest in-flight entry regardless of
destination.  A fresh entry with attempts = 1 is appended exactly when the
in-flight set is empty; otherwise the oldest entry — whatever its
destination mailbox — has its attempt counter incremented and is reused
(fatal once its attempts exceed the retry ceiling), and nothing is
inserted. -/
theorem c4_insert_or_bump (maxR maxM : Nat) (sentMessages : List Mail)
    (pktHdr : PacketHeader) (mailHdr : MailHeader) (data : List Int) :
    (sentMessages = [] →
      reliableSendSingle maxR maxM sentMessages pktHdr mailHdr data =
        .ok { newSent := [⟨pktHdr, mailHdr, data.take maxM, 0, 1⟩]
            , sendPkt := pktHdr
            , sendMh := { mailHdr with remainingParts := 0 }
            , sendData := data, rearm := true, awaitBox := 1 }) ∧
    (∀ old rest, sentMessages = old :: rest →
      (old.attempts ≤ maxR →
        reliableSendSingle maxR maxM sentMessages pktHdr mailHdr data =
          .ok { newSent := { old with attempts := old.attempts + 1 } :: rest
              , sendPkt := pktHdr
              , sendMh := { mailHdr with remainingParts := old.remainingParts }
              , sendData := data, rearm := true, awaitBox := 1 }) ∧
      (maxR < old.attempts →
        reliableSendSingle maxR maxM sentMessages pktHdr mailHdr data =
          .error ())) := by
  refine ⟨fun h => ?_, fun old rest h => ⟨fun hle => ?_, fun hgt => ?_⟩⟩
  · subst h; exact reliableSendSingle_nil maxR maxM pktHdr mailHdr data
  · subst h; exact reliableSendSingle_cons_ok maxR maxM old rest pktHdr mailHdr data hle
  · subst h; exact reliableSendSingle_cons_fatal maxR maxM old rest pktHdr mailHdr data hgt

/-- C4 witness: on an empty in-flight set the entry is inserted with
attempts = 1; on a one-entry set the oldest entry is bumped and reused. -/
theorem c4_insert_or_bump_witness :
    reliableSendSingle 3 5 [] pkt0 ⟨5, 2, 2, 0⟩ [7, 7] =
      .ok { newSent := [⟨pkt0, ⟨5, 2, 2, 0⟩, [7, 7], 0, 1⟩]
          , sendPkt := pkt0
          , sendMh := { (⟨5, 2, 2, 0⟩ : MailHeader) with remainingParts := 0 }
          , sendData := [7, 7], rearm := true, awaitBox := 1 } ∧
    reliableSendSingle 3 5 [mailA] pkt0 ⟨5, 2, 2, 0⟩ [7, 7] =
      .ok { newSent := { mailA with attempts := mailA.attempts + 1 } :: []
          , sendPkt := pkt0
          , sendMh := { (⟨5, 2, 2, 0⟩ : MailHeader) with
                        remainingParts := mailA.remainingParts }
          , sendData := [7, 7], rearm := true, awaitBox := 1 } := by
  constructor
  · exact (c4_insert_or_bump 3 5 [] pkt0 ⟨5, 2, 2, 0⟩ [7, 7]).1 rfl
  · exact ((c4_insert_or_bump 3 5 [mailA] pkt0 ⟨5, 2, 2, 0⟩ [7, 7]).2
      mailA [] rfl).1 (by decide)

/-- C5 counterexample: the in-flight set is non-empty (its oldest entry has
attempt counter 3, exceeding the retry ceiling 2), yet the firing timeout
handler does not resend and re-arm — it terminates fatally, because the
re-entered ReliableSend hits the `ASSERT(false)` at post.cc 430. -/
theorem c5_counterexample :
    timeOutHandler 2 5 [mailEx] = .ok .fatal ∧
    ¬ ∃ r, timeOutHandler 2 5 [mailEx] = .ok (.resent r) := by
  have h : timeOutHandler 2 5 [mailEx] = .ok .fatal :=
    timeOutHandler_cons_fatal 2 5 mailEx [] (by decide)
  refine ⟨h, ?_⟩
  rintro ⟨r, hr⟩
  rw [h] at hr
  exact TOResult.noConfusion (Except.ok.inj hr)

/-- C5 (amended): when the retransmission timeout handler fires with a
non-empty in-flight set whose oldest entry is within the retry ceiling, it
resends that oldest entry via the unreliable send path (through the
single-chunk reliable send, which increments the entry's attempt counter)
and re-arms the timer; with a non-empty set whose oldest entry has
exhausted the ceiling it terminates fatally instead; with an empty set it
performs no retransmission and acts only as a teardown trigger (halt). -/
theorem c5_timeout_handler (maxR maxM : Nat) (sentMessages : List Mail) :
    (sentMessages = [] →
      timeOutHandler maxR maxM sentMessages = .ok .halt) ∧
    (∀ old rest, sentMessages = old :: rest →
      (old.attempts ≤ maxR →
        timeOutHandler maxR maxM sentMessages =
          .ok (.resent { newSent := { old with attempts := old.attempts + 1 } :: rest
                       , sendPkt := old.pktHdr
                       , sendMh := { old.mailHdr with
                                     remainingParts := old.remainingParts }
                       , sendData := old.data
                       , rearm := true, awaitBox := 1 })) ∧
      (maxR < old.attempts →
        timeOutHandler maxR maxM sentMessages = .ok .fatal)) := by
  refine ⟨fun h => ?_, fun old rest h => ⟨fun hle => ?_, fun hgt => ?_⟩⟩
  · subst h; exact timeOutHandler_nil maxR maxM
  · subst h; exact timeOutHandler_cons_resend maxR maxM old rest hle
  · subst h; exact timeOutHandler_cons_fatal maxR maxM old rest hgt

/-- C5 witness: an empty in-flight set halts; a one-entry set within the
ceiling is resent with its attempt counter bumped and the timer re-armed. -/
theorem c5_timeout_handler_witness :
    timeOutHandler 2 5 [] = .ok .halt ∧
    timeOutHandler 2 5 [mailA] =
      .ok (.resent { newSent := { mailA with attempts := mailA.attempts + 1 } :: []
                   , sendPkt := mailA.pktHdr
                   , sendMh := { mailA.mailHdr with
                                 remainingParts := mailA.remainingParts }
                   , sendData := mailA.data
                   , rearm := true, awaitBox := 1 }) := by
  constructor
  · exact (c5_timeout_handler 2 5 []).1 rfl
  · exact ((c5_timeout_handler 2 5 [mailA]).2 mailA [] rfl).1 (by decide)

/-- C3: under total packet loss the retransmission campaign for one chunk
performs exactly (retry ceiling + 1) transmission attempts and then
terminates fatally — never fewer, never more: a single-chunk send (fresh
entry inserted with attempts = 1, then timeout-driven resends) and a
fragmented chunk (appended with attempts = 0, every transmission through
the handler) both total `maxReemissions + 1` transmissions; moreover every
handler firing before exhaustion retransmits and keeps the entry in the
in-flight set (only bumping its attempt counter), and the firing after
exhaustion is the fatal assertion, transmitting nothing. -/
theorem c3_retry_exhaustion (maxReemissions : Nat) :
    totalTransmissionsSingle maxReemissions = maxReemissions + 1 ∧
    totalTransmissionsChunk maxReemissions = maxReemissions + 1 ∧
    (∀ (maxM : Nat) (m : Mail), m.attempts ≤ maxReemissions →
      timeOutHandler maxReemissions maxM [m] =
        .ok (.resent { newSent := [{ m with attempts := m.attempts + 1 }]
                     , sendPkt := m.pktHdr
                     , sendMh := { m.mailHdr with
                                   remainingParts := m.remainingParts }
                     , sendData := m.data
                     , rearm := true, awaitBox := 1 })) ∧
    (∀ (maxM : Nat) (m : Mail), maxReemissions < m.attempts →
      timeOutHandler maxReemissions maxM [m] = .ok .fatal) := by
  refine ⟨?_, ?_, fun maxM m h => ?_, fun maxM m h => ?_⟩
  · unfold totalTransmissionsSingle
    rw [resendsFrom_eq]
    omega
  · unfold totalTransmissionsChunk
    rw [resendsFrom_eq]
    omega
  · exact timeOutHandler_cons_resend maxReemissions maxM m [] h
  · exact timeOutHandler_cons_fatal maxReemissions maxM m [] h

/-- C3 witness: with retry ceiling 2 both campaign counts are 3; a
one-entry set with attempts 0 is resent; attempts 3 is fatal. -/
theorem c3_retry_exhaustion_witness :
    totalTransmissionsSingle 2 = 3 ∧
    totalTransmissionsChunk 2 = 3 ∧
    timeOutHandler 2 5 [mailA] =
      .ok (.resent { newSent := [{ mailA with attempts := mailA.attempts + 1 }]
                   , sendPkt := mailA.pktHdr
                   , sendMh := { mailA.mailHdr with
                                 remainingParts := mailA.remainingParts }
                   , sendData := mailA.data
                   , rearm := true, awaitBox := 1 }) ∧
    timeOutHandler 2 5 [mailEx] = .ok .fatal := by
  refine ⟨(c3_retry_exhaustion 2).1, (c3_retry_exhaustion 2).2.1,
    (c3_retry_exhaustion 2).2.2.1 5 mailA (by decide),
    (c3_retry_exhaustion 2).2.2.2 5 mailEx (by decide)⟩

/-- C6: for every Send with payload length within MaxMailSize and
destination mailbox in range, the buffer handed to the device is exactly
the MailHeader cells followed by `mailHdr.length` payload cells, and the
route header passed to the device carries this machine's address in its
source field and `sizeof(MailHeader) + mailHdr.length` in its length field,
regardless of the source and length values the caller supplied there. -/
theorem c6_send_buffer (netAddr numBoxes : Int) (maxMailSize : Nat)
    (pktHdr : PacketHeader) (mailHdr : MailHeader) (data : List Int)
    (h1 : mailHdr.length ≤ maxMailSize) (h2 : 0 ≤ mailHdr.«to»)
    (h3 : mailHdr.«to» < numBoxes) (h4 : mailHdr.length ≤ data.length) :
    sendModel netAddr numBoxes maxMailSize pktHdr mailHdr data =
      .ok ({ «to» := pktHdr.«to», «from» := netAddr,
             length := mailHdr.length + sizeofMailHeader },
           encodeMailHeader mailHdr ++ data.take mailHdr.length) ∧
    (data.take mailHdr.length).length = mailHdr.length := by
  constructor
  · simp [sendModel, h1, h2, h3]
  · simp [List.length_take]
    omega

/-- C6 witness: machine address 7 and a 2-cell payload to mailbox 3, with
the caller supplying garbage 99s in the route header's source and length
fields. -/
theorem c6_send_buffer_witness :
    sendModel 7 4 5 ⟨1, 99, 99⟩ ⟨3, 2, 2, 0⟩ [10, 11, 12] =
      .ok (⟨1, 7, 6⟩, [2, 3, 2, 0, 10, 11]) ∧
    (([10, 11, 12] : List Int).take 2).length = 2 :=
  c6_send_buffer 7 4 5 ⟨1, 99, 99⟩ ⟨3, 2, 2, 0⟩ [10, 11, 12]
    (by decide) (by decide) (by decide) (by decide)

/-- C7: every protocol violation is fatal rather than recoverable — Send
returns the fatal error exactly when its asserts
(`mailHdr.length <= MaxMailSize`, `0 <= mailHdr.to < numBoxes`) fail, the
delivery dispatcher's validation returns the fatal error exactly when its
asserts fail, the Mail constructor returns the fatal error exactly when its
length assert fails; hence under the asserted preconditions the fatal
branch is unreachable and no error value is ever produced on the
unreliable path. -/
theorem c7_fatal_asserts (netAddr numBoxes : Int) (maxMailSize : Nat)
    (pktHdr : PacketHeader) (mailHdr : MailHeader) (data : List Int) :
    (sendModel netAddr numBoxes maxMailSize pktHdr mailHdr data = .error () ↔
      ¬ (mailHdr.length ≤ maxMailSize ∧ 0 ≤ mailHdr.«to» ∧
         mailHdr.«to» < numBoxes)) ∧
    (postalDeliveryCheck numBoxes maxMailSize mailHdr = .error () ↔
      ¬ ((0 ≤ mailHdr.«to» ∧ mailHdr.«to» < numBoxes) ∧
         mailHdr.length ≤ maxMailSize)) ∧
    (mkMail maxMailSize pktHdr mailHdr data = .error () ↔
      ¬ mailHdr.length ≤ maxMailSize) := by
  refine ⟨?_, ?_, ?_⟩
  · unfold sendModel
    split <;> simp_all
  · unfold postalDeliveryCheck
    split
    · split <;> simp_all
    · simp_all
  · unfold mkMail
    split <;> simp_all

/-- C7 witness: a legal header (length 2 ≤ 5, mailbox 3 within 4 boxes)
makes none of the three operations produce the fatal error. -/
theorem c7_fatal_asserts_witness :
    ¬ sendModel 7 4 5 pkt0 ⟨3, 2, 2, 0⟩ [10, 11] = .error () ∧
    ¬ postalDeliveryCheck 4 5 ⟨3, 2, 2, 0⟩ = .error () ∧
    ¬ mkMail 5 pkt0 ⟨3, 2, 2, 0⟩ [10, 11] = .error () := by
  refine ⟨fun h => ?_, fun h => ?_, fun h => ?_⟩
  · exact absurd ((c7_fatal_asserts 7 4 5 pkt0 ⟨3, 2, 2, 0⟩ [10, 11]).1.mp h)
      (by decide)
  · exact absurd ((c7_fatal_asserts 7 4 5 pkt0 ⟨3, 2, 2, 0⟩ [10, 11]).2.1.mp h)
      (by decide)
  · exact absurd ((c7_fatal_asserts 7 4 5 pkt0 ⟨3, 2, 2, 0⟩ [10, 11]).2.2.mp h)
      (by decide)

/-- C8: FIFO — for every sequence of Put operations into one mailbox from a
single producer (each within the length bound), the sequence of messages
returned by successive Get operations equals the Put sequence in order:
Append adds at the tail and Remove takes from the head, so queue order
equals arrival order; each returned payload is the `mailHdr.length`-cell
prefix the Mail constructor stored. -/
theorem c8_fifo (maxM : Nat)
    (msgs : List (PacketHeader × MailHeader × List Int))
    (h : ∀ x ∈ msgs, x.2.1.length ≤ maxM) :
    putAll maxM [] msgs = .ok (msgs.map mailOf) ∧
    getAll msgs.length (msgs.map mailOf) =
      msgs.map (fun t => (t.1, t.2.1, t.2.2.take t.2.1.length)) := by
  constructor
  · simpa using putAll_ok maxM msgs [] h
  · have hlen : (msgs.map mailOf).length = msgs.length := by simp
    rw [← hlen, getAll_length, List.map_map]
    rfl

/-- C8 witness: two Puts into an empty mailbox come back from two Gets in
Put order with their stored payloads. -/
theorem c8_fifo_witness :
    putAll 5 []
      [(pkt0, ⟨1, 0, 2, 0⟩, [4, 5]), (pkt0, ⟨1, 0, 1, 0⟩, [6])] =
      .ok [⟨pkt0, ⟨1, 0, 2, 0⟩, [4, 5], 0, 0⟩,
           ⟨pkt0, ⟨1, 0, 1, 0⟩, [6], 0, 0⟩] ∧
    getAll 2 [⟨pkt0, ⟨1, 0, 2, 0⟩, [4, 5], 0, 0⟩,
              ⟨pkt0, ⟨1, 0, 1, 0⟩, [6], 0, 0⟩] =
      [(pkt0, ⟨1, 0, 2, 0⟩, [4, 5]), (pkt0, ⟨1, 0, 1, 0⟩, [6])] :=
  c8_fifo 5 [(pkt0, ⟨1, 0, 2, 0⟩, [4, 5]), (pkt0, ⟨1, 0, 1, 0⟩, [6])]
    (by decide)

/-- C9 counterexample: the claim holds that every call site of GetFirst in
the post office guards it with an emptiness check, naming FindMail and the
timeout handler — but the acknowledgment check inside MailBox::Get
(post.cc 157) calls GetFirst on the in-flight list with no guard, so on an
empty in-flight list that dequeue reaches the undefined head dereference. -/
theorem c9_counterexample : getAckCheck [] mailR = .error () := rfl

/-- C9 (amended): GetFirst has the implicit precondition that the list is
non-empty — on a cons cell it returns the head, on the empty list it is the
unsafe NULL dereference, unlike Remove which returns NULL; FindMail and the
timeout handler guard their GetFirst calls with an emptiness check and so
never reach the unsafe dereference; but the acknowledgment check inside
MailBox::Get calls GetFirst unguarded, so on an empty in-flight list that
call site is unsafe. -/
theorem c9_getFirst_precondition :
    (∀ (x : Mail) (t : List Mail), sListGetFirst (x :: t) = .ok x) ∧
    sListGetFirst [] = .error () ∧
    sListRemove [] = (none, []) ∧
    (∀ (sent : List Mail) (m : Mail), findMail sent m ≠ .error ()) ∧
    (∀ (maxR maxM : Nat) (sent : List Mail),
      timeOutHandler maxR maxM sent ≠ .error ()) ∧
    (∀ received : Mail, getAckCheck [] received = .error ()) := by
  refine ⟨fun x t => rfl, rfl, rfl, ?_, ?_, fun received => rfl⟩
  · intro sent m
    cases sent with
    | nil => simp [findMail]
    | cons a t => simp [findMail, sListGetFirst, Except.map]
  · intro maxR maxM sent
    cases sent with
    | nil => simp [timeOutHandler]
    | cons a t =>
      cases h : reliableSendSingle maxR maxM (a :: t) a.pktHdr a.mailHdr a.data
        with
      | error e => simp [timeOutHandler, sListGetFirst, Except.bind, h]
      | ok r => simp [timeOutHandler, sListGetFirst, Except.bind, h]

/-- C9 witness: GetFirst on a one-entry list yields that entry; FindMail on
the empty list is the guarded NULL, not the unsafe dereference; the timeout
handler on the empty list halts safely; the unguarded call site errors on
the empty in-flight list. -/
theorem c9_getFirst_precondition_witness :
    sListGetFirst [mailA] = .ok mailA ∧
    findMail [] mailA = .ok none ∧
    timeOutHandler 1 5 [] = .ok .halt ∧
    getAckCheck [] mailC = .error () := by
  refine ⟨c9_getFirst_precondition.1 mailA [], rfl, rfl,
    c9_getFirst_precondition.2.2.2.2.2 mailC⟩

/-- C10: after transmitting and arming the retransmission timer, the
single-chunk reliable send always blocks receiving from the fixed mailbox
id 1, whatever source mailbox the outgoing header records; the peer's
ReliableReceive addresses its acknowledgment to the source mailbox of the
header it received, so whenever the outgoing source mailbox is not 1 the
acknowledgment is delivered to a different mailbox than the one the sender
awaits it on. -/
theorem c10_await_mailbox (maxR maxM : Nat) (sentMessages : List Mail)
    (pktHdr : PacketHeader) (mailHdr : MailHeader) (data : List Int)
    (r : RSendResult)
    (h : reliableSendSingle maxR maxM sentMessages pktHdr mailHdr data = .ok r) :
    r.awaitBox = 1 ∧
    r.sendMh.«from» = mailHdr.«from» ∧
    (∀ p : PacketHeader, (ackHeaders p r.sendMh).2.«to» = mailHdr.«from») ∧
    (mailHdr.«from» ≠ 1 →
      ∀ p : PacketHeader, (ackHeaders p r.sendMh).2.«to» ≠ r.awaitBox) := by
  have hr : r.awaitBox = 1 ∧ r.sendMh.«from» = mailHdr.«from» := by
    cases sentMessages with
    | nil =>
      rw [reliableSendSingle_nil] at h
      cases Except.ok.inj h
      exact ⟨rfl, rfl⟩
    | cons old rest =>
      rcases le_or_lt old.attempts maxR with hle | hgt
      · rw [reliableSendSingle_cons_ok maxR maxM old rest pktHdr mailHdr data hle]
          at h
        cases Except.ok.inj h
        exact ⟨rfl, rfl⟩
      · rw [reliableSendSingle_cons_fatal maxR maxM old rest pktHdr mailHdr data
          hgt] at h
        exact Except.noConfusion h
  refine ⟨hr.1, hr.2, fun p => ?_, fun hne p => ?_⟩
  · simp [ackHeaders, hr.2]
  · simp [ackHeaders, hr.1, hr.2]
    exact hne

/-- C10 witness: an outgoing header with source mailbox 2 is awaited on
mailbox 1 while the peer's acknowledgment is addressed to mailbox 2. -/
theorem c10_await_mailbox_witness :
    (⟨[⟨pkt0, ⟨3, 2, 2, 0⟩, [7, 7], 0, 1⟩], pkt0, ⟨3, 2, 2, 0⟩, [7, 7],
      true, 1⟩ : RSendResult).awaitBox = 1 ∧
    (ackHeaders pkt0
      (⟨[⟨pkt0, ⟨3, 2, 2, 0⟩, [7, 7], 0, 1⟩], pkt0, ⟨3, 2, 2, 0⟩, [7, 7],
        true, 1⟩ : RSendResult).sendMh).2.«to» = 2 := by
  have h := c10_await_mailbox 3 5 [] pkt0 ⟨3, 2, 2, 0⟩ [7, 7]
    ⟨[⟨pkt0, ⟨3, 2, 2, 0⟩, [7, 7], 0, 1⟩], pkt0, ⟨3, 2, 2, 0⟩, [7, 7],
     true, 1⟩ rfl
  exact ⟨h.1, h.2.2.1 pkt0⟩

theorem fragments_getElem (maxM : Nat) (pktHdr : PacketHeader)
    (mailHdr : MailHeader) (data : List Int) (i : Nat)
    (h : i < (fragments maxM pktHdr mailHdr data).length) :
    (fragments maxM pktHdr mailHdr data)[i] =
      ⟨pktHdr, { mailHdr with length := maxM }, chunkData maxM data i,
       divRoundUp data.length (maxM - 1) - 1 - i, 0⟩ := by
  simp [fragments, fragments_length] at h ⊢

/-- C1 counterexample: with max mail size 4, the 4-cell payload [1,2,3,4]
is strictly larger than (max mail size − 1) = 3, so the claim mandates a
split into ceil(4/3) = 2 chunks; but ReliableSend's guard at post.cc 376 is
`strlen(data) > MaxMailSize`, which 4 fails, so the code takes the
single-chunk path: one in-flight entry, remaining-fragment counter 0, no
fragmentation. -/
theorem c1_counterexample :
    ([1, 2, 3, 4] : List Int).length > 4 - 1 ∧
    divRoundUp ([1, 2, 3, 4] : List Int).length (4 - 1) = 2 ∧
    reliableSend 3 4 [] pkt0 ⟨3, 2, 2, 0⟩ [1, 2, 3, 4] =
      .singlePath (.ok ⟨[⟨pkt0, ⟨3, 2, 2, 0⟩, [1, 2, 3, 4], 0, 1⟩], pkt0,
        ⟨3, 2, 2, 0⟩, [1, 2, 3, 4], true, 1⟩) := by
  refine ⟨by decide, by decide, rfl⟩

/-- C1 (amended): for every payload strictly larger than max mail size
(rather than max mail size − 1) cells, ReliableSend splits it into
ceil(len/(max mail size − 1)) chunks, each carrying at most
(max mail size − 1) payload cells, tagged with strictly decreasing
remaining-fragment counters N-1, ..., 0, every chunk appended to the
in-flight set before any transmission is attempted (the first transmission
then sends the first chunk and keeps all N in flight); and ReliableReceive
on the peer reconstructs the original payload byte-for-byte by
concatenating the fragments in order, recursing while the received header's
remaining-fragment count is greater than zero. -/
theorem c1_fragmentation_reassembly (maxR maxM : Nat)
    (pktHdr : PacketHeader) (mailHdr : MailHeader) (data : List Int)
    (hM : 2 ≤ maxM) (hlen : maxM < data.length) :
    fragProps maxR maxM pktHdr mailHdr data := by
  have hs : 0 < maxM - 1 := by omega
  have hd : 0 < data.length := by omega
  have hppos : 0 < divRoundUp data.length (maxM - 1) :=
    divRoundUp_pos _ _ hd hs
  simp only [fragProps]
  refine ⟨fragments_length maxM pktHdr mailHdr data, ?_, ?_, ?_, ?_, ?_⟩
  · -- every chunk carries at most maxM - 1 cells
    intro f hf
    simp only [fragments, List.mem_map, List.mem_range] at hf
    obtain ⟨i, _, rfl⟩ := hf
    simp [chunkData, List.length_take]
  · exact fragments_counters maxM pktHdr mailHdr data
  · -- all chunks are appended before the first transmission is attempted
    simp [reliableSend, hlen]
  · -- the first transmission sends chunk 0 and keeps all chunks in flight
    obtain ⟨k, hk⟩ : ∃ k, divRoundUp data.length (maxM - 1) = k + 1 :=
      ⟨divRoundUp data.length (maxM - 1) - 1, by omega⟩
    have hcons : fragments maxM pktHdr mailHdr data =
        (⟨pktHdr, { mailHdr with length := maxM }, chunkData maxM data 0,
          divRoundUp data.length (maxM - 1) - 1 - 0, 0⟩ : Mail) ::
        (List.range k).map (fun i =>
          (⟨pktHdr, { mailHdr with length := maxM },
            chunkData maxM data (i + 1),
            divRoundUp data.length (maxM - 1) - 1 - (i + 1), 0⟩ : Mail)) := by
      simp only [fragments]
      rw [hk, List.range_succ_eq_map, List.map_cons, List.map_map]
      rfl
    rw [hcons]
    refine ⟨_, timeOutHandler_cons_resend maxR maxM _ _ (Nat.zero_le _),
      ?_, ?_, ?_⟩
    · simp [chunkData]
    · rfl
    · simp [hk]
  · -- the peer reassembles the original payload by concatenation
    have hne : (fragments maxM pktHdr mailHdr data).map deliveredOf ≠ [] := by
      have : ((fragments maxM pktHdr mailHdr data).map deliveredOf).length =
          divRoundUp data.length (maxM - 1) := by
        simp [fragments_length]
      intro hcontra
      rw [hcontra] at this
      simp at this
      omega
    have hcounters : ∀ i (h : i <
        ((fragments maxM pktHdr mailHdr data).map deliveredOf).length),
        (((fragments maxM pktHdr mailHdr data).map deliveredOf).get
          ⟨i, h⟩).mailHdr.remainingParts =
        ((fragments maxM pktHdr mailHdr data).map deliveredOf).length - 1 - i := by
      intro i h
      have hi : i < (fragments maxM pktHdr mailHdr data).length := by
        simpa using h
      simp only [List.get_eq_getElem, List.getElem_map,
        fragments_getElem maxM pktHdr mailHdr data i hi, deliveredOf]
      simp [fragments_length]
    rw [reliableReceive_concat _ [] hne hcounters]
    congr 1
    rw [List.map_map]
    have hdata : ((fragments maxM pktHdr mailHdr data).map
        (Mail.data ∘ deliveredOf)) =
        (List.range (divRoundUp data.length (maxM - 1))).map
          (fun i => (data.drop (i * (maxM - 1))).take (maxM - 1)) := by
      have : Mail.data ∘ deliveredOf = Mail.data := rfl
      rw [this]
      exact fragments_data maxM pktHdr mailHdr data
    rw [hdata, joinChunks_eq (maxM - 1) _ data
      (le_divRoundUp_mul data.length (maxM - 1) hs)]
    simp

/-- C1 witness: max mail size 4 and the 5-cell payload [1,2,3,4,5] — two
chunks of three and two cells, counters 1 then 0, reassembled to the
original payload. -/
theorem c1_fragmentation_reassembly_witness :
    fragProps 0 4 pkt0 ⟨3, 2, 2, 0⟩ [1, 2, 3, 4, 5] :=
  c1_fragmentation_reassembly 0 4 pkt0 ⟨3, 2, 2, 0⟩ [1, 2, 3, 4, 5]
    (by decide) (by decide)
